import Mathlib

/-!
Verification of the nexp Notion-export library (package `export`).

The Go source is shallowly embedded: pure functions become Lean functions,
the mutable exporter page buffer and the filesystem / HTTP side effects of
image persistence become explicit state passing, fallible calls return
`Except`, and the recursion of `renderBlocks` over a remote block tree is
made total with a fuel parameter.  A Go runtime panic (nil-pointer
dereference, index out of range) is modelled as a distinguished error or as
`Option.none`, as noted at each definition.

Go maps are modelled as association lists; the Go struct zero values are
spelled out explicitly where the source relies on them.
-/

namespace Nexp

/-! ## Data model: styled text runs and pages (the jomei notionapi types) -/

/-- Model of `notionapi.Text`: only the `Content` field is read by the
renderer.  In Go the containing `RichText.Text` is a nullable pointer; the
renderer dereferences it unconditionally, and the model keeps it plain. -/
structure TextObj where
  content : String
deriving DecidableEq

/-- Model of `notionapi.Annotations` (style flags of one rich text run).
In Go the containing `RichText.Annotations` is a nullable pointer; the
renderer dereferences it unconditionally, and the model keeps it plain. -/
structure TextStyle where
  bold : Bool
  italic : Bool
  strikethrough : Bool
  underline : Bool
  code : Bool
deriving DecidableEq

/-- Model of `notionapi.RichText`: the fields read by `RenderText` and
`ResolveTitleInPage`. -/
structure RichText where
  text : TextObj
  annotations : TextStyle
  plainText : String
  href : String
deriving DecidableEq

/-- Model of a `notionapi.Property` of a page: the code only distinguishes
the property whose `GetType` is "title" (cast to `TitleProperty`, holding a
rich text list) from every other property (only its type tag is consulted). -/
inductive PageProperty where
  | titleProp (title : List RichText)
  | otherProp (propType : String)
deriving DecidableEq

/-- Model of `Property.GetType`. -/
def PageProperty.getType : PageProperty → String
  | .titleProp _ => "title"
  | .otherProp t => t

/-- Model of `notionapi.Page`: the renderer only reads `Properties`.  Go
stores them in a `map[string]Property`, whose iteration order is
unspecified; the model fixes one order with an association list. -/
structure NPage where
  properties : List (String × PageProperty)
deriving DecidableEq

/-! ## Data model: raw blocks -/

/-- Model of `notionapi.Table` (the fields the renderer reads). -/
structure NotionTable where
  hasColumnHeader : Bool
  hasRowHeader : Bool
deriving DecidableEq

/-- The per-variant payload of a raw Notion block.  Go uses one struct type
per variant behind the `notionapi.Block` interface and downcasts after
dispatching on `GetType`; the sum type carries exactly the fields the
renderer reads from each variant. -/
inductive BlockPayload where
  | heading1 (richText : List RichText)
  | heading2 (richText : List RichText)
  | heading3 (richText : List RichText)
  | paragraph (richText : List RichText)
  | bulletedListItem (richText : List RichText)
  | numberedListItem (richText : List RichText)
  | toDo (richText : List RichText) (checked : Bool)
  | divider
  | code (richText : List RichText) (language : String)
  | table (tbl : NotionTable)
  | tableRow (cells : List (List RichText))
  | quote (richText : List RichText)
  | callout (richText : List RichText)
  | image (file : Option String) (external : Option String)
  | unsupported (tag : String)
deriving DecidableEq

/-- Model of a raw `notionapi.Block`: its id (used to fetch children), the
`HasChildren` flag, and the variant payload. -/
structure NBlock where
  id : String
  hasChildren : Bool
  payload : BlockPayload
deriving DecidableEq

/-- Model of `Block.GetType`: the variant tag string of the Notion API. -/
def NBlock.getType (b : NBlock) : String :=
  match b.payload with
  | .heading1 _ => "heading_1"
  | .heading2 _ => "heading_2"
  | .heading3 _ => "heading_3"
  | .paragraph _ => "paragraph"
  | .bulletedListItem _ => "bulleted_list_item"
  | .numberedListItem _ => "numbered_list_item"
  | .toDo _ _ => "to_do"
  | .divider => "divider"
  | .code _ _ => "code"
  | .table _ => "table"
  | .tableRow _ => "table_row"
  | .quote _ => "quote"
  | .callout _ => "callout"
  | .image _ _ => "image"
  | .unsupported tag => tag

/-! ## Errors, filesystem and network state -/

/-- Errors of the embedding.  `client` stands for an error value returned by
the Notion client or by the HTTP stack, `nonOk` for the non-200 status code
error of `SaveNotionImageToFilesystem`, `invalidPath` for its short-path
error, `badBlock` for the type-mismatch error of `RenderImage`.
`indexOutOfRange` and `nilDeref` model Go runtime panics, and `outOfFuel`
marks fuel exhaustion of the recursion model (unbounded recursion in Go). -/
inductive Err where
  | client (msg : String)
  | nonOk (status : Nat)
  | invalidPath (address : String)
  | badBlock (tag : String)
  | indexOutOfRange
  | nilDeref
  | outOfFuel
deriving DecidableEq

deriving instance DecidableEq for Except

/-- The local filesystem as the image persistence code observes it: the set
of directories that exist and the set of regular file paths that exist. -/
structure FS where
  dirs : List String
  files : List String
deriving DecidableEq

/-- The world state threaded through image persistence: the filesystem and
the HTTP collaborator.  `http address` models `http.Get`, returning a status
code and a body, or a transport error. -/
structure World where
  fs : FS
  http : String → Except Err (Nat × String)

/-! ## Render options and overrides -/

/-- Model of `ImageSaveOptions`. -/
structure ImageSaveOptions where
  SavePath : String
  IgnoreImages : Bool
  OverwriteExisting : Bool
deriving DecidableEq

/-- Model of `tableState`.  `tableBlock` is a nullable pointer in Go and is
modelled as an `Option` of the table fields the renderer reads. -/
structure tableState where
  tableBlock : Option NotionTable
  rowQuantity : Nat
  currentRow : Nat
deriving DecidableEq

/-- Model of `tableCell`. -/
structure tableCell where
  rowTxt : String
  isRowHeader : Bool
  isColumnHeader : Bool
  tableRef : tableState
  rowBlockRef : Option NBlock
deriving DecidableEq

/-- Model of the `export.Block` argument handed to block renderers.  The Go
struct also carries `Opts []RenderOptions`; because `RenderOptions` contains
override functions whose domain is `Block`, that field is not strictly
positive and cannot live inside the Lean structure.  `RenderImage`, the only
reader of `Block.Opts`, receives the options list as an explicit argument
instead.  `Depth` is a Go `int` that is only ever 0 or incremented, hence a
`Nat`. -/
structure Block where
  Text : String
  BlockRef : NBlock
  Depth : Nat
  PageRef : Option NPage

/-- Model of `headerFooterOverride`. -/
abbrev headerFooterOverride := NPage → String

/-- Model of `blockOverride`. -/
abbrev blockOverride := Block → String

/-- Model of `rowOverride`. -/
abbrev rowOverride := List tableCell → String

/-- Model of `richTextOverride`. -/
abbrev richTextOverride := List RichText → String

/-- Model of `seperationOverride`. -/
abbrev seperationOverride := String → String → String

/-- Modelled from the spec: the `imageOverride` function type is referenced
by `RenderImage` but its definition is not among the repository files given;
per the interface declaration the image operation returns a string and an
error, so the override does too. -/
abbrev imageOverride := Block → Except Err String

/-- Model of `OverrideOptions`.  Each Go field is a nullable function value;
`none` is the Go nil.  `PageHeader` and `PageFooter` are referenced by
`Render` but missing from the options file given, and are modelled from the
spec as header and footer overrides. -/
structure OverrideOptions where
  Header1 : Option blockOverride
  Header2 : Option blockOverride
  Header3 : Option blockOverride
  Paragraph : Option blockOverride
  BulletedList : Option blockOverride
  NumberedList : Option blockOverride
  Divider : Option blockOverride
  Code : Option blockOverride
  Todo : Option blockOverride
  Quote : Option blockOverride
  Callout : Option blockOverride
  Image : Option imageOverride
  Padding : Option blockOverride
  Row : Option rowOverride
  PageHeader : Option headerFooterOverride
  PageFooter : Option headerFooterOverride

/-- The Go zero value of `OverrideOptions`: every override nil. -/
def noOverrides : OverrideOptions :=
  { Header1 := none, Header2 := none, Header3 := none, Paragraph := none,
    BulletedList := none, NumberedList := none, Divider := none,
    Code := none, Todo := none, Quote := none, Callout := none,
    Image := none, Padding := none, Row := none,
    PageHeader := none, PageFooter := none }

/-- Model of `RenderOptions`. -/
structure RenderOptions where
  ImageOpts : ImageSaveOptions
  Overrides : OverrideOptions
  SkipEmptyParagraphs : Bool
  tableState : tableState
  previousElementType : String
  depth : Nat

/-- The Go zero value of `RenderOptions`, produced by
`resolveRenderConfig` when no options are passed. -/
def zeroRenderOptions : RenderOptions :=
  { ImageOpts := { SavePath := "", IgnoreImages := false, OverwriteExisting := false },
    Overrides := noOverrides,
    SkipEmptyParagraphs := false,
    tableState := { tableBlock := none, rowQuantity := 0, currentRow := 0 },
    previousElementType := "",
    depth := 0 }

/-- Model of `resolveRenderConfig`: the first option wins, the Go zero value
stands in when none is given. -/
def resolveRenderConfig (opts : List RenderOptions) : RenderOptions :=
  match opts with
  | [] => zeroRenderOptions
  | c :: _ => c

/-! ## Go strings package primitives

The Go source uses `strings.Split` and `strings.ReplaceAll`.  They are
modelled on character lists with a fuel bound equal to the input length so
that every definition evaluates inside the kernel. -/

/-- Scanner of the split model: walks the characters, emitting the
accumulated piece whenever the separator is a prefix of the rest.  The fuel
never runs out when it starts at the input length plus one and the
separator is nonempty, which holds at every call site. -/
def splitOnAuxF (sep : List Char) : Nat → List Char → List Char → List (List Char)
  | _, [], acc => [acc.reverse]
  | 0, l, acc => [acc.reverse ++ l]
  | Nat.succ fuel, c :: rest, acc =>
    if sep.isPrefixOf (c :: rest) then
      acc.reverse :: splitOnAuxF sep fuel (List.drop sep.length (c :: rest)) []
    else splitOnAuxF sep fuel rest (c :: acc)

/-- Model of Go `strings.Split` for the nonempty separators the source
uses: all the pieces of `s` between occurrences of `sep`, kept in order,
with empty pieces preserved. -/
def strSplitOn (s sep : String) : List String :=
  (splitOnAuxF sep.data (s.data.length + 1) s.data []).map String.mk

/-- Scanner of the replace model: walks the characters, substituting the
replacement whenever the pattern is a prefix of the rest. -/
def replaceAuxF (pattern repl : List Char) : Nat → List Char → List Char
  | _, [] => []
  | 0, l => l
  | Nat.succ fuel, c :: rest =>
    if pattern.isPrefixOf (c :: rest) then
      repl ++ replaceAuxF pattern repl fuel (List.drop pattern.length (c :: rest))
    else c :: replaceAuxF pattern repl fuel rest

/-- Model of Go `strings.ReplaceAll` for the nonempty patterns the source
uses. -/
def strReplace (s pattern repl : String) : String :=
  String.mk (replaceAuxF pattern.data repl.data (s.data.length + 1) s.data)

/-- Model of Go `strings.Join`. -/
def strIntercalate (sep : String) : List String → String
  | [] => ""
  | x :: rest => rest.foldl (fun acc y => acc ++ sep ++ y) x

/-! ## Go fmt.Sprintf for the literal patterns of the renderer -/

/-- Interleaves the pieces of a format string split at its verbs with the
arguments: piece, argument, piece, argument, ...  When the arguments run
out the remaining pieces are concatenated (Go would print a MISSING marker;
no call site of this file hits that case). -/
def interleaveParts : List String → List String → String
  | [], _ => ""
  | p :: ps, [] => p ++ interleaveParts ps []
  | p :: ps, a :: rest => p ++ a ++ interleaveParts ps rest

/-- Shallow model of `fmt.Sprintf` for format strings whose only verbs are
`%s`, which covers every markdown pattern of the source.  An argument list
matching the number of verbs substitutes positionally; a pattern without
verbs passes through unchanged. -/
def sprintf (pattern : String) (args : List String) : String :=
  interleaveParts (strSplitOn pattern "%s") args

/-! ## The markdown pattern constants -/

def mdCodeBlockDelimiter : String := "```"

def mdHeadingOnePattern : String := "# %s"

def mdHeadingTwoPattern : String := "## %s"

def mdHeadingThreePattern : String := "### %s"

def mdLinkPattern : String := "[%s](%s)"

def mdBoldPattern : String := "**%s**"

def mdItalicPattern : String := "_%s_"

def mdStrikeThroughPattern : String := "~%s~"

def mdInlineCodePattern : String := "`%s`"

def mdListItemPattern : String := "* %s"

def mdNumItemPattern : String := "1. %s"

def mdTodoUncheckedPattern : String := "* [] %s"

def mdTodoCheckedPattern : String := "* [x] %s"

def MdImagePattern : String := "![%s](%s)"

def mdTableElementPattern : String := "| %s "

def mdDividerPattern : String := "---"

def mdQuotePattern : String := "> %s"

def defaultImageSaveLocation : String := "images"

def notionImageExtension : String := ".png"

/-- Model of the `languages` map populated in `init`: Notion language names
swapped for markdown-friendly ones. -/
def languages : List (String × String) :=
  [("c++", "cpp"), ("c#", "csharp"), ("f#", "fsharp"), ("plain text", "txt")]

/-- Model of `ResolveLanguageForCodeBlock`: map lookup with pass-through for
unknown names. -/
def ResolveLanguageForCodeBlock (language : String) : String :=
  match languages.lookup language with
  | some val => val
  | none => language

/-! ## Title resolution -/

/-- Model of `ResolveTitleInPage`.  The Go loop keeps the last property of
type title it sees; if none exists the local `title` pointer stays nil and
`len(title.Title)` panics, which the model renders as `none`. -/
def ResolveTitleInPage (p : NPage) : Option String :=
  let title : Option (List RichText) :=
    p.properties.foldl
      (fun acc kv => if kv.2.getType = "title"
        then match kv.2 with
          | .titleProp ts => some ts
          | .otherProp _ => acc
        else acc)
      none
  match title with
  | none => none
  | some ts =>
    match ts with
    | [] => some ""
    | r :: _ => some r.plainText

/-! ## The markdown renderer (the MDRenderer methods) -/

/-- Model of `MDRenderer.RenderPageHeader`: the page title under a level one
heading, or the override result.  Propagates the `ResolveTitleInPage` panic
as `none`. -/
def RenderPageHeader (page : NPage) (o : Option headerFooterOverride) : Option String :=
  match o with
  | some f => some (f page)
  | none =>
    match ResolveTitleInPage page with
    | none => none
    | some t => some (sprintf mdHeadingOnePattern [t])

/-- Model of `MDRenderer.RenderPageFooter`: blank by default. -/
def RenderPageFooter (page : NPage) (o : Option headerFooterOverride) : String :=
  match o with
  | some f => f page
  | none => ""

/-- Model of `MDRenderer.RenderPageHeader1`. -/
def RenderPageHeader1 (b : Block) (o : Option blockOverride) : String :=
  match o with
  | some f => f b
  | none => sprintf mdHeadingOnePattern [b.Text]

/-- Model of `MDRenderer.RenderPageHeader2`. -/
def RenderPageHeader2 (b : Block) (o : Option blockOverride) : String :=
  match o with
  | some f => f b
  | none => sprintf mdHeadingTwoPattern [b.Text]

/-- Model of `MDRenderer.RenderPageHeader3`. -/
def RenderPageHeader3 (b : Block) (o : Option blockOverride) : String :=
  match o with
  | some f => f b
  | none => sprintf mdHeadingThreePattern [b.Text]

/-- Model of `MDRenderer.RenderParagraph`: the styled text unchanged. -/
def RenderParagraph (b : Block) (o : Option blockOverride) : String :=
  match o with
  | some f => f b
  | none => b.Text

/-- Model of `MDRenderer.RenderDivider`. -/
def RenderDivider (b : Block) (o : Option blockOverride) : String :=
  match o with
  | some f => f b
  | none => mdDividerPattern

/-- Model of `MDRenderer.RenderNumberedList`. -/
def RenderNumberedList (b : Block) (o : Option blockOverride) : String :=
  match o with
  | some f => f b
  | none => sprintf mdNumItemPattern [b.Text]

/-- Model of `MDRenderer.RenderBulletedList`. -/
def RenderBulletedList (b : Block) (o : Option blockOverride) : String :=
  match o with
  | some f => f b
  | none => sprintf mdListItemPattern [b.Text]

/-- Model of `MDRenderer.RenderTableRow`.  The Go loop tracks the row index
of the last visited cell in a local `currentRow` (zero valued when the cell
list is empty) and appends a header separator line whenever that index is 0,
with one dash group per cell. -/
def RenderTableRow (cells : List tableCell) (o : Option rowOverride) : String :=
  match o with
  | some f => f cells
  | none =>
    let z := cells.foldl
      (fun (acc : String × Nat) c =>
        (acc.1 ++ sprintf mdTableElementPattern [c.rowTxt], c.tableRef.currentRow))
      ("", 0)
    let row := z.1 ++ "|"
    if z.2 = 0 then
      let rowHeader := (cells.foldl (fun acc _ => acc ++ "| --- ") "") ++ "|"
      row ++ "\n" ++ rowHeader
    else row

/-- Model of `MDRenderer.RenderTodoList`.  The Go method downcasts its block
to a todo block only after checking the type tag; on any other tag the local
pointer stays nil and the `Checked` access panics, modelled as `none`. -/
def RenderTodoList (b : Block) (o : Option blockOverride) : Option String :=
  match o with
  | some f => some (f b)
  | none =>
    match b.BlockRef.payload with
    | .toDo _ checked =>
      if checked then some (sprintf mdTodoCheckedPattern [b.Text])
      else some (sprintf mdTodoUncheckedPattern [b.Text])
    | _ => none

/-- Model of `MDRenderer.RenderCallout`: rendered with the quote pattern. -/
def RenderCallout (b : Block) (o : Option blockOverride) : String :=
  match o with
  | some f => f b
  | none => sprintf mdQuotePattern [b.Text]

/-- Model of `MDRenderer.RenderQuote`. -/
def RenderQuote (b : Block) (o : Option blockOverride) : String :=
  match o with
  | some f => f b
  | none => sprintf mdQuotePattern [b.Text]

/-- Model of `MDRenderer.RenderCode`.  Downcast guarded by the type tag as
in `RenderTodoList`; `none` models the nil dereference on a foreign tag. -/
def RenderCode (b : Block) (o : Option blockOverride) : Option String :=
  match o with
  | some f => some (f b)
  | none =>
    match b.BlockRef.payload with
    | .code _ language =>
      some (mdCodeBlockDelimiter ++ ResolveLanguageForCodeBlock language ++
        "\n" ++ b.Text ++ "\n" ++ mdCodeBlockDelimiter)
    | _ => none

/-- Model of `MDRenderer.RenderText`: one pass over the runs, appending for
each run exactly one representation chosen by the first matching case of the
Go switch: hyperlink, bold, italic, strikethrough, inline code, plain. -/
def RenderText (rt : List RichText) (o : Option richTextOverride) : String :=
  match o with
  | some f => f rt
  | none =>
    rt.foldl
      (fun parsed t =>
        if t.href ≠ "" then parsed ++ sprintf mdLinkPattern [t.text.content, t.href]
        else if t.annotations.bold then parsed ++ sprintf mdBoldPattern [t.text.content]
        else if t.annotations.italic then parsed ++ sprintf mdItalicPattern [t.text.content]
        else if t.annotations.strikethrough then
          parsed ++ sprintf mdStrikeThroughPattern [t.text.content]
        else if t.annotations.code then parsed ++ sprintf mdInlineCodePattern [t.text.content]
        else parsed ++ sprintf t.text.content [])
      ""

/-- Model of `MDRenderer.AddPadding`: at depth 0 the text passes through,
otherwise every line is prefixed with four spaces per depth unit. -/
def AddPadding (b : Block) (o : Option blockOverride) : String :=
  match o with
  | some f => f b
  | none =>
    if b.Depth = 0 then b.Text
    else
      let padding := String.join (List.replicate (b.Depth * 4) " ")
      let paddedTxt := padding ++ b.Text
      strReplace paddedTxt "\n" ("\n" ++ padding)

/-- Model of `MDRenderer.AddSectionSeperation`.  The Go body is four special
same-type conditions yielding a single break, then a switch over the current
type whose listed cases yield a double break, with an empty default. -/
def AddSectionSeperation (previousType currentType : String)
    (o : Option seperationOverride) : String :=
  match o with
  | some f => f previousType currentType
  | none =>
    if previousType = "table_row" ∧ currentType = "table_row" then "\n"
    else if previousType = "to_do" ∧ currentType = "to_do" then "\n"
    else if previousType = "numbered_list_item" ∧ currentType = "numbered_list_item" then "\n"
    else if previousType = "bulleted_list_item" ∧ currentType = "bulleted_list_item" then "\n"
    else if currentType = "heading_1" then "\n\n"
    else if currentType = "heading_2" then "\n\n"
    else if currentType = "heading_3" then "\n\n"
    else if currentType = "table_row" then "\n\n"
    else if currentType = "to_do" then "\n\n"
    else if currentType = "numbered_list_item" then "\n\n"
    else if currentType = "bulleted_list_item" then "\n\n"
    else if currentType = "paragraph" then "\n\n"
    else if currentType = "divider" then "\n\n"
    else if currentType = "code" then "\n\n"
    else if currentType = "quote" then "\n\n"
    else if currentType = "callout" then "\n\n"
    else if currentType = "image" then "\n\n"
    else ""

/-! ## Image persistence -/

/-- Model of `ResolveImageSaveOptions`: defaults overwritten field by field
from the first option passed.  `OverwriteExisting` starts at the Go zero
value `false` since the default literal never sets it, and the body copies
only `SavePath` and `IgnoreImages` from the caller options. -/
def ResolveImageSaveOptions (opts : List ImageSaveOptions) : ImageSaveOptions :=
  let config : ImageSaveOptions :=
    { SavePath := defaultImageSaveLocation, IgnoreImages := false,
      OverwriteExisting := false }
  match opts with
  | [] => config
  | o :: _ =>
    let config := if o.SavePath ≠ "" then { config with SavePath := o.SavePath } else config
    let config := if o.IgnoreImages then { config with IgnoreImages := o.IgnoreImages } else config
    config

/-- Model of `createPathIfNonExistent`: recursively creates the directory
when absent.  A creation failure is not modelled; the Go caller discards the
returned error anyway. -/
def createPathIfNonExistent (path : String) (w : World) : World :=
  if path ∈ w.fs.dirs then w
  else { w with fs := { w.fs with dirs := path :: w.fs.dirs } }

/-- Shallow model of the path component that `net/url` parsing yields for
the absolute http(s) URLs the code receives: the text after the scheme
separator and the host, with any query stripped.  Parse errors of `net/url`
(control characters and the like) are out of scope, as the addresses come
from the Notion API. -/
def urlPath (address : String) : String :=
  let rest :=
    match strSplitOn address "://" with
    | _scheme :: r :: _ => r
    | _ => address
  let noQuery := (strSplitOn rest "?").headD rest
  match strSplitOn noQuery "/" with
  | [] => ""
  | [_host] => ""
  | _host :: segs => "/" ++ strIntercalate "/" segs

/-- Shallow model of `filepath.Join` for one separator-free directory and
file name, as the source uses it. -/
def filepathJoin (dir file : String) : String := dir ++ "/" ++ file

/-- The file path `SaveNotionImageToFilesystem` derives from the image URL:
the third segment of the URL path (the Notion asset UUID) joined to the save
directory, with the fixed png extension.  A path of fewer than two segments
is the invalid-path error of the source; exactly two segments make the Go
index expression `resources[2]` panic, modelled as `indexOutOfRange`. -/
def resolveImagePath (address : String) (savePath : String) : Except Err String :=
  let resources := strSplitOn (urlPath address) "/"
  if resources.length < 2 then .error (.invalidPath address)
  else
    match resources.get? 2 with
    | none => .error .indexOutOfRange
    | some fileName => .ok (filepathJoin savePath fileName ++ notionImageExtension)

/-- Model of `SaveNotionImageToFilesystem`.  Returns the saved path, the
world after the call, and whether an HTTP fetch was performed.  The
existing-file short circuit applies when the resolved options do not request
overwriting and the derived path already exists.  Create and copy failures
of the filesystem are not modelled (the claims under verification do not
concern them); a transport error or a non-200 status is returned as an
error. -/
def SaveNotionImageToFilesystem (address : String) (opts : List ImageSaveOptions)
    (w : World) : Except Err (String × World × Bool) :=
  let config := ResolveImageSaveOptions opts
  let w1 := createPathIfNonExistent config.SavePath w
  match resolveImagePath address config.SavePath with
  | .error e => .error e
  | .ok filePath =>
    if config.OverwriteExisting = false ∧ filePath ∈ w1.fs.files then
      .ok (filePath, w1, false)
    else
      match w1.http address with
      | .error e => .error e
      | .ok (status, _body) =>
        if status ≠ 200 then .error (.nonOk status)
        else
          .ok (filePath,
            { w1 with fs := { w1.fs with files := filePath :: w1.fs.files } },
            true)

/-- Model of `MDRenderer.RenderImage`.  The options list stands in for the
`Opts` field of the Go `Block` argument (see `Block`).  External images
render as a direct link; Notion-hosted files are saved to the filesystem
first; a block of any other variant is the type mismatch error. -/
def RenderImage (b : Block) (opts : List RenderOptions) (o : Option imageOverride)
    (w : World) : Except Err (String × World) :=
  match o with
  | some f =>
    match f b with
    | .error e => .error e
    | .ok s => .ok (s, w)
  | none =>
    match b.BlockRef.payload with
    | .image file external =>
      let config := resolveRenderConfig opts
      match external with
      | some url => .ok (sprintf MdImagePattern ["image", url], w)
      | none =>
        match file with
        | some fileURL =>
          match SaveNotionImageToFilesystem fileURL [config.ImageOpts] w with
          | .error e => .error e
          | .ok (filePath, w2, _fetched) =>
            .ok (sprintf MdImagePattern ["image", filePath], w2)
        | none => .ok (sprintf MdImagePattern ["image", ""], w)
    | _ => .error (.badBlock b.BlockRef.getType)

/-! ## The traversal engine -/

/-- The children listing the content source returns for one request: one
page of results plus the pagination fields `HasMore` and `NextCursor`.  The
source code reads only `Results` from it. -/
structure ChildrenResp where
  results : List NBlock
  hasMore : Bool
  nextCursor : String
deriving DecidableEq

/-- The external content source: page lookup by id and children listing by
block id and start cursor (the empty string is the empty
`notionapi.Pagination` the source code always passes). -/
structure Source where
  getPage : String → Except Err NPage
  getChildren : String → String → Except Err ChildrenResp

/-- One step of the per-block switch of `renderBlocks`: skip the block
entirely (the Go `continue` cases), abort the walk with an error (the Go
early return, or a modelled panic), or carry on with the rendered string and
the updated config and world. -/
inductive BlockStep where
  | skip
  | abort (e : Err) (w : World)
  | next (rend : String) (cfg : RenderOptions) (w : World)

/-- The cells handed to `RenderTableRow` for one table row: per cell, the
row text and the header flags computed from the enclosing table state (row
header on the first row of a row-header table, column header on the first
cell of a column-header table).  `tbl` is the dereferenced
`tableState.tableBlock`. -/
def buildTableCells (tbl : NotionTable) (ts : tableState)
    (cellsRT : List (List RichText)) : List tableCell :=
  cellsRT.enum.map fun ic =>
    { rowTxt := RenderText ic.2 none,
      isRowHeader := tbl.hasRowHeader && ts.currentRow == 0,
      isColumnHeader := tbl.hasColumnHeader && ic.1 == 0,
      tableRef := ts,
      rowBlockRef := none }

/-- The switch body of `renderBlocks` for one block: dispatch on the variant
tag, render through the matching method with the override configured for
that variant, and thread the table state and world updates.  The `table`
case only updates the table state (its rendering stays empty), the
`table_row` case renders the row and then increments the row counter, and a
`table_row` with cells but no table state in scope dereferences a nil
pointer in Go (`abort nilDeref`). -/
def processBlock (pg : NPage) (opts : List RenderOptions) (b : NBlock)
    (config : RenderOptions) (w : World) : BlockStep :=
  match b.payload with
  | .heading1 rt =>
    let txt := RenderText rt none
    .next (RenderPageHeader1 ⟨txt, b, config.depth, some pg⟩ config.Overrides.Header1) config w
  | .heading2 rt =>
    let txt := RenderText rt none
    .next (RenderPageHeader2 ⟨txt, b, config.depth, some pg⟩ config.Overrides.Header2) config w
  | .heading3 rt =>
    let txt := RenderText rt none
    .next (RenderPageHeader3 ⟨txt, b, config.depth, some pg⟩ config.Overrides.Header3) config w
  | .paragraph rt =>
    if config.SkipEmptyParagraphs && decide (rt.length < 1) then .skip
    else
      let txt := RenderText rt none
      .next (RenderParagraph ⟨txt, b, config.depth, some pg⟩ config.Overrides.Paragraph) config w
  | .bulletedListItem rt =>
    let txt := RenderText rt none
    .next (RenderBulletedList ⟨txt, b, config.depth, some pg⟩ config.Overrides.BulletedList)
      config w
  | .numberedListItem rt =>
    let txt := RenderText rt none
    .next (RenderNumberedList ⟨txt, b, config.depth, some pg⟩ config.Overrides.NumberedList)
      config w
  | .toDo rt _checked =>
    let txt := RenderText rt none
    match RenderTodoList ⟨txt, b, config.depth, some pg⟩ config.Overrides.Todo with
    | some s => .next s config w
    | none => .abort .nilDeref w
  | .divider =>
    .next (RenderDivider ⟨"", b, 0, none⟩ config.Overrides.Divider) config w
  | .code rt _language =>
    let txt := RenderText rt none
    match RenderCode ⟨txt, b, config.depth, some pg⟩ config.Overrides.Code with
    | some s => .next s config w
    | none => .abort .nilDeref w
  | .table tbl =>
    .next ""
      { config with tableState :=
        { config.tableState with tableBlock := some tbl, currentRow := 0 } } w
  | .tableRow cellsRT =>
    match config.tableState.tableBlock with
    | none =>
      match cellsRT with
      | [] =>
        let rend := RenderTableRow [] config.Overrides.Row
        .next rend
          { config with tableState :=
            { config.tableState with currentRow := config.tableState.currentRow + 1 } } w
      | _ :: _ => .abort .nilDeref w
    | some tbl =>
      let cells := buildTableCells tbl config.tableState cellsRT
      let rend := RenderTableRow cells config.Overrides.Row
      .next rend
        { config with tableState :=
          { config.tableState with currentRow := config.tableState.currentRow + 1 } } w
  | .quote rt =>
    let txt := RenderText rt none
    .next (RenderQuote ⟨txt, b, config.depth, some pg⟩ config.Overrides.Quote) config w
  | .callout rt =>
    let txt := RenderText rt none
    .next (RenderCallout ⟨txt, b, config.depth, some pg⟩ config.Overrides.Callout) config w
  | .image _ _ =>
    if config.ImageOpts.IgnoreImages then .skip
    else
      match RenderImage ⟨"", b, 0, some pg⟩ opts config.Overrides.Image w with
      | .error e => .abort e w
      | .ok (s, w2) => .next s config w2
  | .unsupported _ => .next "" config w

/-- The outcome of one `renderBlocks` call: the page buffer, the world, and
the error slot of the Go return (with a modelled panic or fuel exhaustion
carried the same way). -/
abbrev RenderOutcome := String × World × Option Err

/-- The shape of the recursive `renderBlocks` call as `descendChildren` and
the loop see it: container id, options, page so far, world. -/
abbrev RecurFn := String → List RenderOptions → String → World → RenderOutcome

/-- Model of the children descent at the end of the loop body: when the
block reports children, copy the config, increment the depth unless the
block is a table, and recurse on the child id.  The Go statement discards
both results of the recursive call, but the page buffer and the filesystem
live on the exporter and the process, so their updates survive; only the
error of the recursive call is lost. -/
def descendChildren (recur : RecurFn) (b : NBlock) (config : RenderOptions)
    (page : String) (w : World) : String × World :=
  if b.hasChildren then
    let configCopy :=
      if b.getType ≠ "table" then { config with depth := config.depth + 1 } else config
    let r := recur b.id [configCopy] page w
    (r.1, r.2.1)
  else (page, w)

/-- Model of the `for _, b := range blocks.Results` loop of `renderBlocks`:
process the block, pad the rendering with the current depth, prepend the
section separator computed against the previous element type, append, record
the type as previous, and descend into children. -/
def renderLoop (recur : RecurFn) (pg : NPage) (opts : List RenderOptions) :
    List NBlock → RenderOptions → String → World → RenderOutcome
  | [], _config, page, w => (page, w, none)
  | b :: rest, config, page, w =>
    match processBlock pg opts b config w with
    | .skip => renderLoop recur pg opts rest config page w
    | .abort e w2 => (page, w2, some e)
    | .next rend config1 w1 =>
      let rendP := AddPadding ⟨rend, b, config1.depth, none⟩ none
      let page1 := page ++ AddSectionSeperation config1.previousElementType b.getType none
      let page2 := page1 ++ rendP
      let config2 := { config1 with previousElementType := b.getType }
      let pw := descendChildren recur b config2 page2 w1
      renderLoop recur pg opts rest config2 pw.1 pw.2

/-- Model of `renderBlocks`: fetch the page object for the container, fetch
one page of children with the empty pagination the source code always
passes, and run the loop; client failures of either fetch are returned with
the buffer as it stands.  The fuel bounds the recursion depth, standing in
for the unbounded Go call stack. -/
def renderBlocksF (src : Source) : Nat → String → List RenderOptions → String → World →
    RenderOutcome
  | 0, _pageID, _opts, page, w => (page, w, some .outOfFuel)
  | Nat.succ fuel, pageID, opts, page, w =>
    match src.getPage pageID with
    | .error e => (page, w, some e)
    | .ok pg =>
      let config := resolveRenderConfig opts
      match src.getChildren pageID "" with
      | .error e => (page, w, some e)
      | .ok blocks => renderLoop (renderBlocksF src fuel) pg opts blocks.results config page w

/-- Model of `exporter.Render`: reset the page buffer, fetch the page,
append the page header, render the block tree, append the footer.  Errors
of the page fetch and of `renderBlocks` are returned to the caller (Go wraps
their messages; the model keeps the error value). -/
def Render (src : Source) (fuel : Nat) (pageID : String) (opts : List RenderOptions)
    (w : World) : RenderOutcome :=
  let config := resolveRenderConfig opts
  let page0 := ""
  match src.getPage pageID with
  | .error e => (page0, w, some e)
  | .ok p =>
    match RenderPageHeader p config.Overrides.PageHeader with
    | none => (page0, w, some .nilDeref)
    | some hdr =>
      let page1 := page0 ++ hdr
      let r := renderBlocksF src fuel pageID opts page1 w
      match r.2.2 with
      | some e => (r.1, r.2.1, some e)
      | none => (r.1 ++ RenderPageFooter p config.Overrides.PageFooter, r.2.1, none)

/-! ## Specification-side definitions

These follow the words of the spec, for comparison against the definitions
above that follow the source. -/

/-- Modelled from the spec: fetch all children of a container by following
pagination cursors transparently until the source reports no further pages,
preserving order.  The fuel bounds the number of pages followed. -/
def fetchAllChildren (src : Source) (containerId : String) :
    Nat → String → Except Err (List NBlock)
  | 0, _cursor => .error .outOfFuel
  | Nat.succ fuel, cursor =>
    match src.getChildren containerId cursor with
    | .error e => .error e
    | .ok resp =>
      if resp.hasMore then
        match fetchAllChildren src containerId fuel resp.nextCursor with
        | .error e => .error e
        | .ok more => .ok (resp.results ++ more)
      else .ok resp.results

/-- The per-run representation the spec prescribes for the style composer:
exactly one of link, bold, italic, strikethrough, inline code or plain,
chosen by strict precedence in that order. -/
def styleRunSpec (t : RichText) : String :=
  if t.href ≠ "" then sprintf mdLinkPattern [t.text.content, t.href]
  else if t.annotations.bold then sprintf mdBoldPattern [t.text.content]
  else if t.annotations.italic then sprintf mdItalicPattern [t.text.content]
  else if t.annotations.strikethrough then sprintf mdStrikeThroughPattern [t.text.content]
  else if t.annotations.code then sprintf mdInlineCodePattern [t.text.content]
  else sprintf t.text.content []

/-- The variant pairs the spec singles out for tight grouping: previous and
current are the same variant drawn from this set. -/
def tightGroupVariant (c : String) : Prop :=
  c = "table_row" ∨ c = "to_do" ∨ c = "numbered_list_item" ∨ c = "bulleted_list_item"

instance (c : String) : Decidable (tightGroupVariant c) := by
  unfold tightGroupVariant
  infer_instance

/-- The known renderable variant tags: the cases of the separator switch. -/
def knownRenderableVariant (c : String) : Prop :=
  c = "heading_1" ∨ c = "heading_2" ∨ c = "heading_3" ∨ c = "table_row" ∨
  c = "to_do" ∨ c = "numbered_list_item" ∨ c = "bulleted_list_item" ∨
  c = "paragraph" ∨ c = "divider" ∨ c = "code" ∨ c = "quote" ∨
  c = "callout" ∨ c = "image"

instance (c : String) : Decidable (knownRenderableVariant c) := by
  unfold knownRenderableVariant
  infer_instance

/-- In-order concatenation of a list of strings, with no separators. -/
def concatStrings : List String → String
  | [] => ""
  | s :: rest => s ++ concatStrings rest

/-- The pipe-delimited cell part of a table row as the spec describes it. -/
def rowTextSpec (cells : List tableCell) : String :=
  concatStrings (cells.map fun c => sprintf mdTableElementPattern [c.rowTxt])

/-- The header separator row as the claim describes it: one dash group per
cell, closed with a pipe. -/
def headerSeparatorSpec (n : Nat) : String :=
  concatStrings (List.replicate n "| --- ") ++ "|"

/-- The row index `RenderTableRow` observes: the table state of the last
cell, or the Go zero value 0 when the row has no cells. -/
def lastRowIndex (cells : List tableCell) : Nat :=
  (cells.getLast?.map fun c => c.tableRef.currentRow).getD 0

/-! ## Concrete fixtures for counterexamples and witnesses -/

/-- A plain styled text run with the given content. -/
def plainRun (s : String) : RichText :=
  { text := { content := s },
    annotations :=
      { bold := false, italic := false, strikethrough := false,
        underline := false, code := false },
    plainText := s, href := "" }

/-- A run carrying both a hyperlink and the bold flag. -/
def linkBoldRun : RichText :=
  { text := { content := "click" },
    annotations :=
      { bold := true, italic := false, strikethrough := false,
        underline := false, code := false },
    plainText := "click", href := "https://example.com" }

/-- A childless paragraph block reading hello. -/
def blkHello : NBlock :=
  { id := "b-hello", hasChildren := false, payload := .paragraph [plainRun "hello"] }

/-- A childless paragraph block reading world. -/
def blkWorld : NBlock :=
  { id := "b-world", hasChildren := false, payload := .paragraph [plainRun "world"] }

/-- A paragraph block that reports having children. -/
def blkParent : NBlock :=
  { id := "b-parent", hasChildren := true, payload := .paragraph [plainRun "hi"] }

/-- An unchecked todo block. -/
def blkTodoUnchecked : NBlock :=
  { id := "b-todo", hasChildren := false, payload := .toDo [plainRun "buy milk"] false }

/-- A world with an empty filesystem and no reachable network. -/
def world0 : World :=
  { fs := { dirs := [], files := [] }, http := fun _ => .error (.client "offline") }

/-- A page whose single property is a title reading Notes. -/
def pageNotes : NPage := { properties := [("title", .titleProp [plainRun "Notes"])] }

/-- A page none of whose properties has the title role. -/
def pageNoTitle : NPage := { properties := [("tags", .otherProp "multi_select")] }

/-- A source that serves the children of root in two pagination pages:
first hello with a continuation cursor, then world. -/
def srcPaged : Source :=
  { getPage := fun _ => .ok pageNotes,
    getChildren := fun id cursor =>
      if id = "root" ∧ cursor = "" then
        .ok { results := [blkHello], hasMore := true, nextCursor := "cursor-1" }
      else if id = "root" ∧ cursor = "cursor-1" then
        .ok { results := [blkWorld], hasMore := false, nextCursor := "" }
      else .error (.client "unknown container") }

/-- A source that serves both children of root in a single page. -/
def srcOnePage : Source :=
  { getPage := fun _ => .ok pageNotes,
    getChildren := fun id _cursor =>
      if id = "root" then
        .ok { results := [blkHello, blkWorld], hasMore := false, nextCursor := "" }
      else .error (.client "unknown container") }

/-- A source whose root block has one child block with children of its own,
and whose children listing fails for that child. -/
def srcChildFails : Source :=
  { getPage := fun _ => .ok pageNotes,
    getChildren := fun id _cursor =>
      if id = "root" then
        .ok { results := [blkParent], hasMore := false, nextCursor := "" }
      else .error (.client "boom") }

/-- A first-row cell of a table that declares no row header. -/
def cellNoHeaderTable : tableCell :=
  { rowTxt := "a", isRowHeader := false, isColumnHeader := false,
    tableRef :=
      { tableBlock := some { hasColumnHeader := false, hasRowHeader := false },
        rowQuantity := 0, currentRow := 0 },
    rowBlockRef := none }

/-- A Notion-hosted image address whose third path segment is the asset
id abc-123. -/
def imgAddress : String := "https://files.example.com/secure/abc-123/img.png"

/-- Caller options requesting overwriting of existing images. -/
def optsOverwrite : ImageSaveOptions :=
  { SavePath := "images", IgnoreImages := false, OverwriteExisting := true }

/-- A world in which the derived local file of `imgAddress` already exists
and the network would answer 200. -/
def wExisting : World :=
  { fs := { dirs := ["images"], files := ["images/abc-123.png"] },
    http := fun _ => .ok (200, "image-bytes") }

/-- A world with the save directory present but no saved file, and a
network answering 200. -/
def wFetchable : World :=
  { fs := { dirs := ["images"], files := [] },
    http := fun _ => .ok (200, "image-bytes") }

/-! ## Helper lemmas -/

theorem sprintf_todo_checked (t : String) : sprintf mdTodoCheckedPattern [t] = "* [x] " ++ t := by
  have h : strSplitOn mdTodoCheckedPattern "%s" = ["* [x] ", ""] := by decide
  simp [sprintf, h, interleaveParts]

theorem sprintf_todo_unchecked (t : String) :
    sprintf mdTodoUncheckedPattern [t] = "* [] " ++ t := by
  have h : strSplitOn mdTodoUncheckedPattern "%s" = ["* [] ", ""] := by decide
  simp [sprintf, h, interleaveParts]

theorem sprintf_link (c h : String) :
    sprintf mdLinkPattern [c, h] = "[" ++ c ++ ("](" ++ h ++ ")") := by
  have hs : strSplitOn mdLinkPattern "%s" = ["[", "](", ")"] := by decide
  simp [sprintf, hs, interleaveParts, String.append_assoc]

theorem sprintf_bold (c : String) : sprintf mdBoldPattern [c] = "**" ++ c ++ "**" := by
  have hs : strSplitOn mdBoldPattern "%s" = ["**", "**"] := by decide
  simp [sprintf, hs, interleaveParts]

theorem createPath_files (p : String) (w : World) :
    (createPathIfNonExistent p w).fs.files = w.fs.files := by
  unfold createPathIfNonExistent
  split_ifs <;> rfl

theorem createPath_http (p : String) (w : World) :
    (createPathIfNonExistent p w).http = w.http := by
  unfold createPathIfNonExistent
  split_ifs <;> rfl

theorem createPath_mem_dirs (p : String) (w : World) :
    p ∈ (createPathIfNonExistent p w).fs.dirs := by
  unfold createPathIfNonExistent
  split_ifs with h
  · exact h
  · exact List.mem_cons_self p _

theorem createPath_of_mem (p : String) (w : World) (h : p ∈ w.fs.dirs) :
    createPathIfNonExistent p w = w := by
  unfold createPathIfNonExistent
  rw [if_pos h]

theorem resolveImageSave_overwrite (opts : List ImageSaveOptions) :
    (ResolveImageSaveOptions opts).OverwriteExisting = false := by
  cases opts with
  | nil => rfl
  | cons o rest =>
    unfold ResolveImageSaveOptions
    simp only []
    split_ifs <;> rfl

/-! ## Claim C3 -/

/-- C3: `AddSectionSeperation` without an override is total and
deterministic over all variant tag pairs, returns only the empty string, a
single break or a double break; the single break appears exactly for
same-variant pairs among table_row, to_do, numbered_list_item and
bulleted_list_item, the double break exactly for the remaining pairs whose
current variant is a known renderable variant, and the empty string
otherwise. -/
theorem c3_separator_policy (p c : String) :
    (AddSectionSeperation p c none = "" ∨ AddSectionSeperation p c none = "\n" ∨
      AddSectionSeperation p c none = "\n\n") ∧
    (AddSectionSeperation p c none = "\n" ↔ (p = c ∧ tightGroupVariant c)) ∧
    (AddSectionSeperation p c none = "\n\n" ↔
      (¬(p = c ∧ tightGroupVariant c) ∧ knownRenderableVariant c)) := by
  by_cases hk : knownRenderableVariant c
  · by_cases hpc : p = c
    · subst hpc
      rcases hk with h | h | h | h | h | h | h | h | h | h | h | h | h <;> subst h <;>
        simp_all [AddSectionSeperation, tightGroupVariant, knownRenderableVariant]
    · rcases hk with h | h | h | h | h | h | h | h | h | h | h | h | h <;> subst h <;>
        simp_all [AddSectionSeperation, tightGroupVariant, knownRenderableVariant]
  · have hk2 := hk
    simp only [knownRenderableVariant] at hk2
    push_neg at hk2
    simp_all [AddSectionSeperation, tightGroupVariant, knownRenderableVariant]

/-! ## Claim C4 -/

/-- C4: whenever a block reports having children, the recursive
`renderBlocks` call on its children receives the context with depth one more
than the parent depth, except that a table keeps its own depth for its
rows. -/
theorem c4_child_depth (src : Source) (fuel : Nat) (b : NBlock) (config : RenderOptions)
    (page : String) (w : World) (hb : b.hasChildren = true) :
    descendChildren (renderBlocksF src fuel) b config page w =
      (let r := renderBlocksF src fuel b.id
        [{ config with
            depth := if b.getType = "table" then config.depth else config.depth + 1 }]
        page w
      (r.1, r.2.1)) := by
  unfold descendChildren
  rw [hb]
  by_cases ht : b.getType = "table" <;> simp [ht]

/-- Witness for C4 at a concrete paragraph block with children. -/
theorem c4_child_depth_witness :
    blkParent.hasChildren = true ∧
    descendChildren (renderBlocksF srcChildFails 1) blkParent zeroRenderOptions "" world0 =
      (let r := renderBlocksF srcChildFails 1 blkParent.id
        [{ zeroRenderOptions with
            depth := if blkParent.getType = "table" then zeroRenderOptions.depth
              else zeroRenderOptions.depth + 1 }]
        "" world0
      (r.1, r.2.1)) :=
  ⟨rfl, c4_child_depth srcChildFails 1 blkParent zeroRenderOptions "" world0 rfl⟩

/-! ## Claim C1 -/

/-- C1, amended: `renderBlocks` issues exactly one children request, with
the empty pagination cursor, and iterates only over the results of that
first response page; pagination cursors are not followed. -/
theorem c1_amended (src : Source) (fuel : Nat) (pageID : String)
    (opts : List RenderOptions) (page : String) (w : World) (pg : NPage)
    (resp : ChildrenResp) (hp : src.getPage pageID = .ok pg)
    (hc : src.getChildren pageID "" = .ok resp) :
    renderBlocksF src (fuel + 1) pageID opts page w =
      renderLoop (renderBlocksF src fuel) pg opts resp.results
        (resolveRenderConfig opts) page w := by
  simp [renderBlocksF, hp, hc]

/-- Witness for C1 at the one-page source. -/
theorem c1_amended_witness :
    renderBlocksF srcOnePage 4 "root" [] "" world0 =
      renderLoop (renderBlocksF srcOnePage 3) pageNotes [] [blkHello, blkWorld]
        (resolveRenderConfig []) "" world0 :=
  c1_amended srcOnePage 3 "root" [] "" world0 pageNotes
    { results := [blkHello, blkWorld], hasMore := false, nextCursor := "" } rfl rfl

/-- C1, counterexample: against a source that serves the children of root
in two pagination pages, cursor-following fetches both children but
`renderBlocks` renders only the first page, so the second child never
appears in the output (the one-page render of the same children shows what
the full rendering would be). -/
theorem c1_counterexample :
    srcPaged.getChildren "root" "" =
      .ok { results := [blkHello], hasMore := true, nextCursor := "cursor-1" } ∧
    fetchAllChildren srcPaged "root" 4 "" = .ok [blkHello, blkWorld] ∧
    (renderBlocksF srcPaged 4 "root" [] "" world0).1 = "\n\nhello" ∧
    (renderBlocksF srcOnePage 4 "root" [] "" world0).1 = "\n\nhello\n\nworld" ∧
    ("\n\nhello" : String) ≠ "\n\nhello\n\nworld" := by
  refine ⟨by decide, by decide, by decide, by decide, by decide⟩

/-! ## Claim C2 -/

/-- C2: evaluation at the failing input of the code bug.  The children
fetch for the child block of root fails, the child reports having children,
and yet `Render` returns its output with no error: the recursive
`renderBlocks` call discards the error. -/
theorem c2_code_bug_eval :
    srcChildFails.getChildren "b-parent" "" = .error (.client "boom") ∧
    blkParent.hasChildren = true ∧
    (Render srcChildFails 5 "root" [] world0).2.2 = none ∧
    (Render srcChildFails 5 "root" [] world0).1 = "# Notes\n\nhi" := by
  refine ⟨by decide, by decide, by decide, by decide⟩

/-! ## Claim C5 -/

theorem rowFold_eq (cells : List tableCell) (a : String) (n : Nat) :
    cells.foldl
      (fun (acc : String × Nat) c =>
        (acc.1 ++ sprintf mdTableElementPattern [c.rowTxt], c.tableRef.currentRow)) (a, n) =
      (a ++ rowTextSpec cells,
        (cells.getLast?.map fun c => c.tableRef.currentRow).getD n) := by
  induction cells generalizing a n with
  | nil => simp [rowTextSpec, concatStrings]
  | cons c rest ih =>
    simp only [List.foldl_cons]
    rw [ih]
    cases rest with
    | nil => simp [rowTextSpec, concatStrings, String.append_assoc]
    | cons d ds =>
      have hx : (d :: ds).getLast? = some ((d :: ds).getLast (by simp)) :=
        List.getLast?_eq_getLast _ _
      simp [rowTextSpec, concatStrings, String.append_assoc, hx]

theorem headerFold_eq (cells : List tableCell) (a : String) :
    cells.foldl (fun acc _ => acc ++ "| --- ") a =
      a ++ concatStrings (List.replicate cells.length "| --- ") := by
  induction cells generalizing a with
  | nil => simp [concatStrings]
  | cons c rest ih =>
    simp only [List.foldl_cons, List.length_cons, List.replicate_succ]
    rw [ih]
    simp [concatStrings, String.append_assoc]

/-- C5, amended: without an override, `RenderTableRow` emits the header
separator row beneath the row exactly when the row index carried by the
table state (of the last cell, 0 for an empty row) is 0, whether or not the
enclosing table declares a row header: the declaration flags are never
consulted. -/
theorem c5_amended (cells : List tableCell) :
    RenderTableRow cells none =
      rowTextSpec cells ++ "|" ++
        (if lastRowIndex cells = 0 then "\n" ++ headerSeparatorSpec cells.length
          else "") := by
  simp only [RenderTableRow]
  rw [rowFold_eq, headerFold_eq]
  unfold lastRowIndex headerSeparatorSpec
  by_cases h : ((cells.getLast?.map fun c => c.tableRef.currentRow).getD 0) = 0
  · rw [if_pos h, if_pos h]
    simp only [String.empty_append, String.append_assoc]
  · rw [if_neg h, if_neg h]
    simp only [String.empty_append, String.append_empty, String.append_assoc]

/-- C5, counterexample: a first-row cell whose enclosing table declares no
row header still gets the header separator row. -/
theorem c5_counterexample :
    cellNoHeaderTable.tableRef.currentRow = 0 ∧
    cellNoHeaderTable.tableRef.tableBlock =
      some { hasColumnHeader := false, hasRowHeader := false } ∧
    cellNoHeaderTable.isRowHeader = false ∧
    RenderTableRow [cellNoHeaderTable] none = "| a |\n| --- |" := by
  refine ⟨by decide, by decide, by decide, by decide⟩

/-! ## Claim C6 -/

/-- C6, amended: for a block whose variant is to_do, the default renderer
consults the checked boolean of the raw block and renders the text behind
the marker for checked, and behind the bracket pair with no inner space
for unchecked. -/
theorem c6_amended (txt : String) (b : NBlock) (rt : List RichText) (checked : Bool)
    (d : Nat) (pgref : Option NPage) (hb : b.payload = .toDo rt checked) :
    RenderTodoList { Text := txt, BlockRef := b, Depth := d, PageRef := pgref } none =
      some (if checked then "* [x] " ++ txt else "* [] " ++ txt) := by
  cases b with
  | mk id hc payload =>
    simp only at hb
    subst hb
    cases checked <;>
      simp [RenderTodoList, sprintf_todo_checked, sprintf_todo_unchecked]

/-- Witness for C6 at the concrete unchecked todo block. -/
theorem c6_amended_witness :
    RenderTodoList
      { Text := "buy milk", BlockRef := blkTodoUnchecked, Depth := 0, PageRef := none }
      none = some (if false then "* [x] " ++ "buy milk" else "* [] " ++ "buy milk") :=
  c6_amended "buy milk" blkTodoUnchecked [plainRun "buy milk"] false 0 none rfl

/-- C6, counterexample: the unchecked marker the code produces has no space
between the brackets, unlike the claimed marker. -/
theorem c6_counterexample :
    blkTodoUnchecked.payload = .toDo [plainRun "buy milk"] false ∧
    RenderTodoList
      { Text := "buy milk", BlockRef := blkTodoUnchecked, Depth := 0, PageRef := none }
      none = some "* [] buy milk" ∧
    ("* [] buy milk" : String) ≠ "* [ ] buy milk" := by
  refine ⟨by decide, by decide, by decide⟩

/-! ## Claim C7 -/

theorem renderTextFold_eq (rt : List RichText) (a : String) :
    rt.foldl
      (fun parsed t =>
        if t.href ≠ "" then parsed ++ sprintf mdLinkPattern [t.text.content, t.href]
        else if t.annotations.bold then parsed ++ sprintf mdBoldPattern [t.text.content]
        else if t.annotations.italic then parsed ++ sprintf mdItalicPattern [t.text.content]
        else if t.annotations.strikethrough then
          parsed ++ sprintf mdStrikeThroughPattern [t.text.content]
        else if t.annotations.code then parsed ++ sprintf mdInlineCodePattern [t.text.content]
        else parsed ++ sprintf t.text.content []) a =
      a ++ concatStrings (rt.map styleRunSpec) := by
  induction rt generalizing a with
  | nil => simp [concatStrings]
  | cons t rest ih =>
    have hbody :
        (if t.href ≠ "" then a ++ sprintf mdLinkPattern [t.text.content, t.href]
          else if t.annotations.bold then a ++ sprintf mdBoldPattern [t.text.content]
          else if t.annotations.italic then a ++ sprintf mdItalicPattern [t.text.content]
          else if t.annotations.strikethrough then
            a ++ sprintf mdStrikeThroughPattern [t.text.content]
          else if t.annotations.code then a ++ sprintf mdInlineCodePattern [t.text.content]
          else a ++ sprintf t.text.content []) = a ++ styleRunSpec t := by
      simp only [styleRunSpec]
      split_ifs <;> rfl
    simp only [List.foldl_cons, List.map_cons]
    rw [hbody, ih]
    simp [concatStrings, String.append_assoc]

/-- C7: the default `RenderText` concatenates, in order and with no
separators, one representation per run, chosen by the strict precedence
hyperlink, bold, italic, strikethrough, inline code, plain; in particular a
run carrying both a hyperlink and the bold flag renders in link syntax and
never in bold syntax. -/
theorem c7_style_precedence :
    (∀ rt : List RichText, RenderText rt none = concatStrings (rt.map styleRunSpec)) ∧
    (∀ t : RichText, t.href ≠ "" → t.annotations.bold = true →
      styleRunSpec t = sprintf mdLinkPattern [t.text.content, t.href] ∧
      styleRunSpec t ≠ sprintf mdBoldPattern [t.text.content]) := by
  constructor
  · intro rt
    have h := renderTextFold_eq rt ""
    simpa [RenderText] using h
  · intro t hhref _hbold
    have hlink : styleRunSpec t = sprintf mdLinkPattern [t.text.content, t.href] := by
      simp only [styleRunSpec]
      rw [if_pos hhref]
    refine ⟨hlink, ?_⟩
    rw [hlink, sprintf_link, sprintf_bold]
    intro heq
    have hd := congrArg String.data heq
    simp [String.data_append] at hd

/-- Witness for C7 at a run with both hyperlink and bold. -/
theorem c7_witness :
    RenderText [linkBoldRun] none = concatStrings ([linkBoldRun].map styleRunSpec) ∧
    styleRunSpec linkBoldRun =
      sprintf mdLinkPattern [linkBoldRun.text.content, linkBoldRun.href] :=
  ⟨c7_style_precedence.1 [linkBoldRun],
    (c7_style_precedence.2 linkBoldRun (by decide) (by decide)).1⟩

/-! ## Claim C8 -/

theorem titleFold_none (l : List (String × PageProperty)) (acc : Option (List RichText))
    (h : ∀ e ∈ l, e.2.getType ≠ "title") :
    l.foldl
      (fun acc kv => if kv.2.getType = "title"
        then match kv.2 with
          | .titleProp ts => some ts
          | .otherProp _ => acc
        else acc) acc = acc := by
  induction l generalizing acc with
  | nil => rfl
  | cons e rest ih =>
    have he : e.2.getType ≠ "title" := h e (List.mem_cons_self e rest)
    simp only [List.foldl_cons, if_neg he]
    exact ih _ (fun x hx => h x (List.mem_cons_of_mem e hx))

/-- C8, amended: when the page has a property with the title role (here the
last such property, unique in practice) whose rich text is `rts`, title
resolution returns the plain text of the first segment of `rts`, or the
empty string when `rts` is empty; when no property has the title role the
Go code dereferences a nil pointer instead of returning a value. -/
theorem c8_amended (pre post : List (String × PageProperty)) (k : String)
    (rts : List RichText) (h : ∀ e ∈ post, e.2.getType ≠ "title") :
    ResolveTitleInPage ⟨pre ++ (k, .titleProp rts) :: post⟩ =
      (match rts with
        | [] => some ""
        | r :: _ => some r.plainText) := by
  simp only [ResolveTitleInPage, List.foldl_append, List.foldl_cons]
  rw [titleFold_none post _ h]
  cases rts <;> rfl

/-- Witness for C8 at the concrete page titled Notes. -/
theorem c8_amended_witness : ResolveTitleInPage pageNotes = some "Notes" := by
  have h := c8_amended [] [] "title" [plainRun "Notes"] (by simp)
  simpa [pageNotes, plainRun] using h

/-- C8, counterexample: on a page none of whose properties has the title
role, `ResolveTitleInPage` does not return the empty string (or any string):
the Go code panics on a nil `TitleProperty` pointer, modelled as `none`. -/
theorem c8_counterexample :
    (∀ kv ∈ pageNoTitle.properties, kv.2.getType ≠ "title") ∧
    ResolveTitleInPage pageNoTitle = none ∧
    ResolveTitleInPage pageNoTitle ≠ some "" := by
  refine ⟨by decide, by decide, by decide⟩

/-! ## Claim C9 -/

theorem save_short_circuit (address : String) (opts : List ImageSaveOptions)
    (w : World) (fp : String)
    (hov : (ResolveImageSaveOptions opts).OverwriteExisting = false)
    (hres : resolveImagePath address (ResolveImageSaveOptions opts).SavePath = .ok fp)
    (hmem : fp ∈ w.fs.files) :
    SaveNotionImageToFilesystem address opts w =
      .ok (fp, createPathIfNonExistent (ResolveImageSaveOptions opts).SavePath w,
        false) := by
  simp only [SaveNotionImageToFilesystem]
  simp only [hres]
  rw [if_pos ⟨hov, by rw [createPath_files]; exact hmem⟩]

theorem c9_part_b (address : String) (opts : List ImageSaveOptions) (w : World)
    (fp : String) (w1 : World) (fetched : Bool)
    (hsave : SaveNotionImageToFilesystem address opts w = .ok (fp, w1, fetched)) :
    SaveNotionImageToFilesystem address opts w1 = .ok (fp, w1, false) := by
  have hov := resolveImageSave_overwrite opts
  simp only [SaveNotionImageToFilesystem] at hsave
  cases hres : resolveImagePath address (ResolveImageSaveOptions opts).SavePath with
  | error e =>
    simp only [hres] at hsave
    simp at hsave
  | ok fp0 =>
    simp only [hres] at hsave
    by_cases hcond : (ResolveImageSaveOptions opts).OverwriteExisting = false ∧
        fp0 ∈ (createPathIfNonExistent (ResolveImageSaveOptions opts).SavePath w).fs.files
    · rw [if_pos hcond] at hsave
      simp only [Except.ok.injEq, Prod.mk.injEq] at hsave
      obtain ⟨h1, h2, h3⟩ := hsave
      subst h1
      have hdirs : (ResolveImageSaveOptions opts).SavePath ∈ w1.fs.dirs := by
        rw [← h2]
        exact createPath_mem_dirs _ _
      have hfiles : fp0 ∈ w1.fs.files := by
        rw [← h2]
        exact hcond.2
      have hgoal := save_short_circuit address opts w1 fp0 hov hres hfiles
      rw [createPath_of_mem _ _ hdirs] at hgoal
      exact hgoal
    · rw [if_neg hcond] at hsave
      cases hh : (createPathIfNonExistent (ResolveImageSaveOptions opts).SavePath w).http
          address with
      | error e =>
        simp only [hh] at hsave
        simp at hsave
      | ok sb =>
        obtain ⟨status, body⟩ := sb
        simp only [hh] at hsave
        by_cases hst : status ≠ 200
        · rw [if_pos hst] at hsave
          simp at hsave
        · rw [if_neg hst] at hsave
          simp only [Except.ok.injEq, Prod.mk.injEq] at hsave
          obtain ⟨h1, h2, h3⟩ := hsave
          subst h1
          have hdirs : (ResolveImageSaveOptions opts).SavePath ∈ w1.fs.dirs := by
            rw [← h2]
            exact createPath_mem_dirs _ _
          have hfiles : fp0 ∈ w1.fs.files := by
            rw [← h2]
            exact List.mem_cons_self _ _
          have hgoal := save_short_circuit address opts w1 fp0 hov hres hfiles
          rw [createPath_of_mem _ _ hdirs] at hgoal
          exact hgoal

/-- C9: image persistence is idempotent when overwriting is not requested:
with the resolved options not overwriting, an already existing derived file
is returned as is with no HTTP fetch (only the save directory is ensured),
and a second call after any successful save returns the same path and world
with no fetch. -/
theorem c9_idempotent :
    (∀ (address : String) (opts : List ImageSaveOptions) (w : World) (fp : String),
      (ResolveImageSaveOptions opts).OverwriteExisting = false →
      resolveImagePath address (ResolveImageSaveOptions opts).SavePath = .ok fp →
      fp ∈ w.fs.files →
      SaveNotionImageToFilesystem address opts w =
        .ok (fp, createPathIfNonExistent (ResolveImageSaveOptions opts).SavePath w,
          false)) ∧
    (∀ (address : String) (opts : List ImageSaveOptions) (w : World) (fp : String)
      (w1 : World) (fetched : Bool),
      SaveNotionImageToFilesystem address opts w = .ok (fp, w1, fetched) →
      SaveNotionImageToFilesystem address opts w1 = .ok (fp, w1, false)) :=
  ⟨fun address opts w fp hov hres hmem =>
    save_short_circuit address opts w fp hov hres hmem,
   fun address opts w fp w1 fetched hsave =>
    c9_part_b address opts w fp w1 fetched hsave⟩

/-- Witness for C9 at the concrete image address and existing file. -/
theorem c9_witness :
    SaveNotionImageToFilesystem imgAddress [] wExisting =
      .ok ("images/abc-123.png",
        createPathIfNonExistent (ResolveImageSaveOptions []).SavePath wExisting,
        false) :=
  c9_idempotent.1 imgAddress [] wExisting "images/abc-123.png"
    (by decide) (by decide) (by decide)

/-! ## Claim C10 -/

/-- C10: evaluation at the failing input of the code bug.  The caller
requests overwriting, but `ResolveImageSaveOptions` never copies the
`OverwriteExisting` flag, so with the derived file already present the save
returns the existing path with no HTTP fetch and no write, leaving the
world unchanged. -/
theorem c10_code_bug_eval :
    optsOverwrite.OverwriteExisting = true ∧
    (ResolveImageSaveOptions [optsOverwrite]).OverwriteExisting = false ∧
    ("images/abc-123.png" : String) ∈ wExisting.fs.files ∧
    SaveNotionImageToFilesystem imgAddress [optsOverwrite] wExisting =
      .ok ("images/abc-123.png", wExisting, false) := by
  refine ⟨rfl, by decide, by decide, ?_⟩
  rfl

/-- Witness for C3 at a concrete same-variant pair. -/
theorem c3_witness :
    (AddSectionSeperation "to_do" "to_do" none = "" ∨
      AddSectionSeperation "to_do" "to_do" none = "\n" ∨
      AddSectionSeperation "to_do" "to_do" none = "\n\n") ∧
    (AddSectionSeperation "to_do" "to_do" none = "\n" ↔
      ("to_do" = "to_do" ∧ tightGroupVariant "to_do")) ∧
    (AddSectionSeperation "to_do" "to_do" none = "\n\n" ↔
      (¬("to_do" = "to_do" ∧ tightGroupVariant "to_do") ∧
        knownRenderableVariant "to_do")) :=
  c3_separator_policy "to_do" "to_do"

/-- Witness for C5 at the concrete first-row cell. -/
theorem c5_witness :
    RenderTableRow [cellNoHeaderTable] none =
      rowTextSpec [cellNoHeaderTable] ++ "|" ++
        (if lastRowIndex [cellNoHeaderTable] = 0 then
          "\n" ++ headerSeparatorSpec [cellNoHeaderTable].length
        else "") :=
  c5_amended [cellNoHeaderTable]

end Nexp
